import Mathlib

/-!
Verification of the user-record CLI (`app/cli.py`).

The durable store is modelled as a list of `User` records in insertion
order.  Each CLI operation is a function from the store (and its string
arguments) to the resulting store together with the list of printed
outputs.  `change_email` returns `Except ConstraintViolation _` because
the uniqueness violation is not caught there and propagates.

The database layer (`app/database.py`, `app/models.py`) is not part of
the given sources; its behaviour (the `User` constructor and fields, id
generation on commit, the uniqueness constraints on `username` and
`email` raised as `IntegrityError` on commit, the semantics of
`select`, `where`, `first`, `contains`, `offset`, `limit`) is modelled
from the spec, as marked in the doc comments below.
-/

namespace UserCli

/-- Modelled from the spec: the `User` entity from `app/models.py` (absent
from the sources) — `id` integer generated by the store, `username` and
`email` text and unique, `password` text stored as given. -/
structure User where
  id : Nat
  username : String
  email : String
  password : String
deriving DecidableEq, Repr

/-- The durable store: one relational table of `User` rows, insertion
order.  Modelled from the spec: unfiltered scans produce insertion
order. -/
abbrev Store := List User

/-- Everything a command prints: a literal/interpolated message
(`print(f'...')`), a full record (`print(user)`), or the database error
object (`print(e.orig)` in `create_user`). -/
inductive Out where
  | msg : String → Out
  | record : User → Out
  | dbError : Out
deriving DecidableEq, Repr

/-- Modelled from the spec: `ConstraintViolation` — failure raised by the
store when a uniqueness rule is broken (`IntegrityError`). -/
inductive ConstraintViolation where
  | violation
deriving DecidableEq, Repr

/-- Modelled from the spec: the store generates the integer `id` on first
successful persist; fresh ids are larger than every existing id. -/
def nextId (s : Store) : Nat :=
  s.foldr (fun r m => max r.id m) 0 + 1

/-- Modelled from the spec: commit of an insert fails with
`ConstraintViolation` iff the new row's username or email collides with
an existing durable row. -/
def insertCollides (s : Store) (u e : String) : Bool :=
  s.any (fun r => r.username == u || r.email == e)

/-- Number of rows whose email is `e`. -/
def emailCount (s : Store) (e : String) : Nat :=
  s.countP (fun r => r.email == e)

/-- `leadsWith p l` is true iff `p` is an initial segment of `l`. -/
def leadsWith : List Char → List Char → Bool
  | [], _ => true
  | _ :: _, [] => false
  | a :: as, b :: bs => a == b && leadsWith as bs

/-- `hasSub p l` is true iff `p` occurs in `l` as a contiguous block. -/
def hasSub (p : List Char) : List Char → Bool
  | [] => leadsWith p []
  | c :: t => leadsWith p (c :: t) || hasSub p t

/-- Modelled from the spec: the SQL `contains` operator used by
`find_user_partial` — case-sensitive contiguous substring match at any
position. -/
def strContains (hay pat : String) : Bool :=
  hasSub pat.toList hay.toList

/-- `cli.py` `initialize`: drop all tables, recreate the schema, insert
the default user bob (`User('bob', 'bob@mail.com', 'bobpass')`), commit,
print "Database Initialized".  The prior store state is discarded by
`drop_all`. -/
def init_db (_s : Store) : Store × List Out :=
  let s0 : Store := []
  let bob : User :=
    { id := nextId s0, username := "bob", email := "bob@mail.com", password := "bobpass" }
  (s0 ++ [bob], [Out.msg "Database Initialized"])

/-- `cli.py` `get_user`: select the first row whose username equals the
argument; print "<username> not found!" when absent, the record when
found.  No mutation, no commit. -/
def get_user (s : Store) (username : String) : Store × List Out :=
  match s.find? (fun r => r.username == username) with
  | none => (s, [Out.msg (username ++ " not found!")])
  | some user => (s, [Out.record user])

/-- `cli.py` `get_all_users`: unfiltered scan; print "No users found!"
when the table is empty, otherwise every row in store order. -/
def get_all_users (s : Store) : Store × List Out :=
  if s.isEmpty then (s, [Out.msg "No users found!"])
  else (s, s.map Out.record)

/-- Replace the email of the first row whose username is `u` (the row
returned by `.first()`, the one SQLAlchemy mutates). -/
def setEmailFirst (u ne : String) : Store → Store
  | [] => []
  | r :: rs =>
      if r.username == u then { r with email := ne } :: rs
      else r :: setEmailFirst u ne rs

/-- `cli.py` `change_email`: select the first row with the given
username; if absent print "<username> not found! Unable to update
email."; otherwise set its email, add and commit, and print
"Updated <username>'s email to <new email>" (the record's username and
its email after the mutation).  The commit raises `ConstraintViolation`
— uncaught, so it propagates — iff after the update another row holds
the same email (modelled from the spec: uniqueness of `email`). -/
def change_email (s : Store) (username new_email : String) :
    Except ConstraintViolation (Store × List Out) :=
  match s.find? (fun r => r.username == username) with
  | none => Except.ok (s, [Out.msg (username ++ " not found! Unable to update email.")])
  | some user =>
      let user' : User := { user with email := new_email }
      let s' := setEmailFirst username new_email s
      if 1 < emailCount s' new_email then Except.error ConstraintViolation.violation
      else Except.ok
        (s', [Out.msg ("Updated " ++ user'.username ++ "\x27s email to " ++ user'.email)])

/-- `cli.py` `create_user`: construct `User(username, email, password)`,
add, commit.  On `IntegrityError` (modelled from the spec: the new row's
username or email collides with an existing row) roll back — the durable
store is unchanged — print the database error (`e.orig`) and
"Username or email already taken!".  Otherwise the new row is durable
with a fresh id and is printed. -/
def create_user (s : Store) (username email password : String) : Store × List Out :=
  if insertCollides s username email then
    (s, [Out.dbError, Out.msg "Username or email already taken!"])
  else
    let newuser : User := { id := nextId s, username := username, email := email, password := password }
    (s ++ [newuser], [Out.record newuser])

/-- `cli.py` `delete_user`: select the first row with the given username;
if absent print "<username> not found! Unable to delete user."; else
delete that row, commit, print "User <username> deleted successfully.". -/
def delete_user (s : Store) (username : String) : Store × List Out :=
  match s.find? (fun r => r.username == username) with
  | none => (s, [Out.msg (username ++ " not found! Unable to delete user.")])
  | some _ =>
      (s.eraseP (fun r => r.username == username),
       [Out.msg ("User " ++ username ++ " deleted successfully.")])

/-- The row filter of `find_user_partial`:
`username.contains(pat) | email.contains(pat)`. -/
def matchUser (pat : String) (r : User) : Bool :=
  strContains r.username pat || strContains r.email pat

/-- `cli.py` `find_user_partial`: select all rows whose username or email
contains the partial string; print each match, or
`No users found matching "<pat>"` when there is none.  No mutation. -/
def find_user_partial (s : Store) (pat : String) : Store × List Out :=
  let users := s.filter (matchUser pat)
  if users.isEmpty then
    (s, [Out.msg ("No users found matching \"" ++ pat ++ "\"")])
  else (s, users.map Out.record)

/-- `cli.py` `list_users`: bounded/offset scan —
`select(User).offset(offset).limit(limit)` skips the first `offset` rows
of the store-order scan and takes at most `limit` rows (modelled from
the spec: bounded/offset scan).  Prints the page, or "No users found!"
when it is empty.  No mutation. -/
def list_users (s : Store) (limit offset : Nat) : Store × List Out :=
  let users := (s.drop offset).take limit
  if users.isEmpty then (s, [Out.msg "No users found!"])
  else (s, users.map Out.record)

/-- The argument validation typer performs before `list_users` runs:
`limit` has `min=1` and `offset` has `min=0`; out-of-range arguments are
rejected and the operation does not run. -/
def list_users_cli (s : Store) (limit offset : Int) : Option (Store × List Out) :=
  if 1 ≤ limit ∧ 0 ≤ offset then some (list_users s limit.toNat offset.toNat)
  else none

/-- The store's own invariants: `username` unique, `email` unique.  Every
durable state reachable through commits satisfies this. -/
def WF (s : Store) : Prop :=
  (s.map User.username).Nodup ∧ (s.map User.email).Nodup

instance (s : Store) : Decidable (WF s) := by
  unfold WF; infer_instance

/-- A sample durable record, used to instantiate theorems. -/
def bobRec : User :=
  { id := 1, username := "bob", email := "bob@mail.com", password := "bobpass" }

/-- A second sample durable record. -/
def aliceRec : User :=
  { id := 2, username := "alice", email := "alice@mail.com", password := "alicepass" }

/-! ### Helper lemmas -/

lemma find_append_of_all_false (p : User → Bool) (l1 l2 : List User)
    (h : ∀ x ∈ l1, p x = false) :
    (l1 ++ l2).find? p = l2.find? p := by
  induction l1 with
  | nil => simp
  | cons a t ih =>
      have ha : ¬ p a = true := by simp [h a (List.mem_cons_self a t)]
      rw [List.cons_append, List.find?_cons_of_neg _ ha]
      exact ih fun x hx => h x (List.mem_cons_of_mem a hx)

lemma find_first_match (u : String) (pre post : Store) (r : User)
    (hpre : ∀ y ∈ pre, y.username ≠ u) (hr : r.username = u) :
    (pre ++ r :: post).find? (fun x => x.username == u) = some r := by
  rw [find_append_of_all_false _ pre _ (fun x hx => by simp [hpre x hx])]
  exact List.find?_cons_of_pos _ (by simp [hr])

lemma filter_length_eq_one {α : Type} (f : α → String) (v : String) :
    ∀ l : List α, (l.map f).Nodup → (∃ r ∈ l, f r = v) →
      (l.filter (fun x => f x == v)).length = 1 := by
  intro l
  induction l with
  | nil => intro _ h; simp at h
  | cons a t ih =>
      intro hn hex
      rw [List.map_cons, List.nodup_cons] at hn
      by_cases hfa : f a = v
      · have ht : t.filter (fun x => f x == v) = [] := by
          rw [List.filter_eq_nil_iff]
          intro x hx hxv
          exact hn.1 (hfa ▸ (by simpa using hxv) ▸ List.mem_map_of_mem f hx)
        simp [List.filter_cons, hfa, ht]
      · obtain ⟨r, hr, hrv⟩ := hex
        rcases List.mem_cons.1 hr with rfl | hrt
        · exact absurd hrv hfa
        · rw [List.filter_cons, if_neg (by simp [hfa])]
          exact ih hn.2 ⟨r, hrt, hrv⟩

lemma setEmailFirst_append (u ne : String) (pre post : Store) (r : User)
    (hpre : ∀ y ∈ pre, y.username ≠ u) (hr : r.username = u) :
    setEmailFirst u ne (pre ++ r :: post) = pre ++ { r with email := ne } :: post := by
  induction pre with
  | nil => simp [setEmailFirst, hr]
  | cons a t ih =>
      have ha : (a.username == u) = false := by
        simp [hpre a (List.mem_cons_self a t)]
      simp only [List.cons_append, setEmailFirst, ha, Bool.false_eq_true, if_false,
        List.cons.injEq, true_and]
      exact ih fun y hy => hpre y (List.mem_cons_of_mem a hy)

lemma emailCount_append (l1 l2 : Store) (e : String) :
    emailCount (l1 ++ l2) e = emailCount l1 e + emailCount l2 e := by
  simp [emailCount, List.countP_append]

lemma emailCount_pos (l : Store) (e : String) (x : User) (hx : x ∈ l)
    (hxe : x.email = e) : 0 < emailCount l e := by
  rw [emailCount, List.countP_pos_iff]
  exact ⟨x, hx, by simp [hxe]⟩

lemma emailCount_eq_zero (l : Store) (e : String)
    (h : ∀ y ∈ l, y.email ≠ e) : emailCount l e = 0 := by
  rw [emailCount, List.countP_eq_zero]
  intro y hy
  simp [h y hy]

lemma leadsWith_self_append : ∀ (p t : List Char), leadsWith p (p ++ t) = true := by
  intro p
  induction p with
  | nil => intro t; rfl
  | cons a as ih => intro t; simp [leadsWith, ih]

lemma hasSub_of_mid : ∀ (a p t : List Char), hasSub p (a ++ (p ++ t)) = true := by
  intro a
  induction a with
  | nil =>
      intro p t
      match h : p ++ t with
      | [] =>
          have hp : p = [] := by
            cases p with
            | nil => rfl
            | cons c cs => simp at h
          simp [hp, hasSub, leadsWith]
      | c :: rest =>
          simp only [List.nil_append, h, hasSub]
          rw [← h, leadsWith_self_append, Bool.true_or]
  | cons b bs ih =>
      intro p t
      have hstep : hasSub p ((b :: bs) ++ (p ++ t))
          = (leadsWith p ((b :: bs) ++ (p ++ t)) || hasSub p (bs ++ (p ++ t))) := rfl
      rw [hstep, ih, Bool.or_true]

lemma strContains_mid (a mid t : String) : strContains (a ++ mid ++ t) mid = true := by
  have hdata : (a ++ mid ++ t).data = a.data ++ (mid.data ++ t.data) := by
    rw [String.data_append, String.data_append, List.append_assoc]
  simp only [strContains, String.toList, hdata]
  exact hasSub_of_mid a.data mid.data t.data

/-! ### Claims -/

/-- C5: `initialize` is idempotent — for every prior store state, one run
leaves exactly one durable record, the user bob with email
"bob@mail.com" and password "bobpass"; a second run leaves the store
exactly as the first did, with exactly one record whose username is
"bob". -/
theorem claim_c5_init_idempotent (s : Store) :
    (init_db ((init_db s).1)).1 = (init_db s).1 ∧
    (init_db s).1
      = [{ id := 1, username := "bob", email := "bob@mail.com", password := "bobpass" }] ∧
    ((init_db s).1.filter (fun r => r.username == "bob")).length = 1 :=
  ⟨rfl, rfl, rfl⟩

/-- C10: the read-only operations `get_user`, `get_all_users`,
`find_user_partial` and `list_users` leave the durable store exactly as
it was, for every store state and every input, in the found and
not-found branches alike. -/
theorem claim_c10_read_only (s : Store) (u pat : String) (limit offset : Nat) :
    (get_user s u).1 = s ∧
    (get_all_users s).1 = s ∧
    ( find_user_partial s pat).1 = s ∧
    (list_users s limit offset).1 = s := by
  refine ⟨?_, ?_, ?_, ?_⟩
  · unfold get_user
    cases s.find? (fun r => r.username == u) <;> rfl
  · unfold get_all_users
    split <;> rfl
  · unfold find_user_partial
    dsimp only
    split <;> rfl
  · unfold list_users
    dsimp only
    split <;> rfl

/-- C7: for every store in which username `u` is absent, `get_user u`
prints "<u> not found!" and `delete_user u` prints
"<u> not found! Unable to delete user.", both return normally, and the
durable store is exactly the store before the call. -/
theorem claim_c7_not_found (s : Store) (u : String)
    (habs : ∀ r ∈ s, r.username ≠ u) :
    get_user s u = (s, [Out.msg (u ++ " not found!")]) ∧
    delete_user s u = (s, [Out.msg (u ++ " not found! Unable to delete user.")]) := by
  have hnone : s.find? (fun r => r.username == u) = none := by
    rw [List.find?_eq_none]
    intro x hx
    simp [habs x hx]
  constructor
  · unfold get_user; rw [hnone]
  · unfold delete_user; rw [hnone]

theorem claim_c7_witness :
    get_user [bobRec] "carol" = ([bobRec], [Out.msg ("carol" ++ " not found!")]) ∧
    delete_user [bobRec] "carol"
      = ([bobRec], [Out.msg ("carol" ++ " not found! Unable to delete user.")]) :=
  claim_c7_not_found [bobRec] "carol" (by decide)

/-- C4: on a store of exactly 5 users inserted in order u1..u5,
`list_users 2 0` prints exactly [u1, u2] in that order and
`list_users 2 4` prints exactly [u5]; in general, whenever the page is
non-empty, `list_users limit offset` prints the store-order scan
skipping the first `offset` records and taking at most `limit` records;
and the command surface accepts the arguments exactly when `limit ≥ 1`
and `offset ≥ 0` (validated before the scan runs). -/
theorem claim_c4_list_users (u1 u2 u3 u4 u5 : User) (s : Store) (limit offset : Nat) :
    (list_users [u1, u2, u3, u4, u5] 2 0).2 = [Out.record u1, Out.record u2] ∧
    (list_users [u1, u2, u3, u4, u5] 2 4).2 = [Out.record u5] ∧
    ((s.drop offset).take limit ≠ [] →
      (list_users s limit offset).2 = ((s.drop offset).take limit).map Out.record) ∧
    (∀ l o : Int, (list_users_cli s l o).isSome = true ↔ 1 ≤ l ∧ 0 ≤ o) := by
  refine ⟨rfl, rfl, ?_, ?_⟩
  · intro h
    have hne : ((s.drop offset).take limit).isEmpty = false := by
      simpa [List.isEmpty_iff] using h
    simp [list_users, hne]
  · intro l o
    unfold list_users_cli
    split <;> simp_all

theorem claim_c4_witness :
    (list_users [bobRec, aliceRec, bobRec, aliceRec, bobRec] 2 0).2
      = [Out.record bobRec, Out.record aliceRec] ∧
    (list_users [bobRec, aliceRec, bobRec, aliceRec, bobRec] 2 4).2
      = [Out.record bobRec] ∧
    (list_users [bobRec] 1 0).2 = [Out.record bobRec] ∧
    (list_users_cli [bobRec] 0 0).isSome = false := by
  have h := claim_c4_list_users bobRec aliceRec bobRec aliceRec bobRec [bobRec] 1 0
  refine ⟨h.1, h.2.1, ?_, ?_⟩
  · have := h.2.2.1 (by decide)
    simpa using this
  · have := (h.2.2.2 0 0).not
    simp only [Bool.not_eq_true] at this ⊢
    exact this.mpr (by decide)

/-- C3: `find_user_partial` prints exactly the records whose username or
email contains the partial string as a contiguous, case-sensitive
substring at any position (`matchUser`); when no record matches it
prints only the "No users found matching" message; and a record that
does not match case-sensitively — in particular one matching only under
a case-insensitive comparison — is never printed. -/
theorem claim_c3_find_user_partial (s : Store) (pat : String) :
    (s.filter (matchUser pat) ≠ [] →
      ( find_user_partial s pat).2 = (s.filter (matchUser pat)).map Out.record) ∧
    (s.filter (matchUser pat) = [] →
      ( find_user_partial s pat).2
        = [Out.msg ("No users found matching \"" ++ pat ++ "\"")]) ∧
    (∀ r : User, matchUser pat r = false →
      Out.record r ∉ ( find_user_partial s pat).2) := by
  by_cases h : s.filter (matchUser pat) = []
  · refine ⟨fun hne => absurd h hne, fun _ => ?_, fun r _ => ?_⟩
    · simp [ find_user_partial, h]
    · simp [ find_user_partial, h]
  · have hne : (s.filter (matchUser pat)).isEmpty = false := by
      simpa [List.isEmpty_iff] using h
    refine ⟨fun _ => ?_, fun he => absurd he h, fun r hr hmem => ?_⟩
    · simp [ find_user_partial, hne]
    · simp only [ find_user_partial, hne, Bool.false_eq_true, if_false] at hmem
      obtain ⟨r', hr', heq⟩ := List.mem_map.1 hmem
      cases heq
      exact absurd (List.mem_filter.1 hr').2 (by simp [hr])

theorem claim_c3_witness :
    ( find_user_partial
        [{ id := 1, username := "Bob", email := "B@MAIL.COM", password := "p" },
         { id := 2, username := "xboby", email := "z@z", password := "q" }] "bob").2
      = [Out.record { id := 2, username := "xboby", email := "z@z", password := "q" }] ∧
    Out.record { id := 1, username := "Bob", email := "B@MAIL.COM", password := "p" }
      ∉ ( find_user_partial
          [{ id := 1, username := "Bob", email := "B@MAIL.COM", password := "p" },
           { id := 2, username := "xboby", email := "z@z", password := "q" }] "bob").2 := by
  have h := claim_c3_find_user_partial
    [{ id := 1, username := "Bob", email := "B@MAIL.COM", password := "p" },
     { id := 2, username := "xboby", email := "z@z", password := "q" }] "bob"
  exact ⟨by rw [h.1 (by decide)]; decide, h.2.2 _ (by decide)⟩

/-- C1: creating a user whose username or email already occurs in a
durable record fails on commit with a uniqueness violation; the
operation rolls back, prints "Username or email already taken!", the
durable store afterwards is exactly the store before the call, and (the
store satisfying its uniqueness invariants) exactly one record with the
colliding username, and exactly one with the colliding email,
remains. -/
theorem claim_c1_create_user_duplicate (s : Store) (u e p : String)
    (hWF : WF s) (hdup : insertCollides s u e = true) :
    (create_user s u e p).1 = s ∧
    Out.msg "Username or email already taken!" ∈ (create_user s u e p).2 ∧
    (∀ r ∈ s, r.username = u →
      ((create_user s u e p).1.filter (fun x => x.username == u)).length = 1) ∧
    (∀ r ∈ s, r.email = e →
      ((create_user s u e p).1.filter (fun x => x.email == e)).length = 1) := by
  have h1 : (create_user s u e p).1 = s := by simp [create_user, hdup]
  refine ⟨h1, by simp [create_user, hdup], ?_, ?_⟩
  · intro r hr hru
    rw [h1]
    exact filter_length_eq_one User.username u s hWF.1 ⟨r, hr, hru⟩
  · intro r hr hre
    rw [h1]
    exact filter_length_eq_one User.email e s hWF.2 ⟨r, hr, hre⟩

theorem claim_c1_witness :
    (create_user [bobRec] "bob" "other@mail.com" "pw").1 = [bobRec] ∧
    Out.msg "Username or email already taken!"
      ∈ (create_user [bobRec] "bob" "other@mail.com" "pw").2 ∧
    ((create_user [bobRec] "bob" "other@mail.com" "pw").1.filter
        (fun x => x.username == "bob")).length = 1 := by
  have h := claim_c1_create_user_duplicate [bobRec] "bob" "other@mail.com" "pw"
    (by decide) (by decide)
  exact ⟨h.1, h.2.1, h.2.2.1 bobRec (List.mem_singleton.mpr rfl) rfl⟩

/-- C6: when the new username and email collide with no durable record,
`create_user u e p` commits a new record whose username is `u`, email is
`e` and password is `p` (stored as given, unhashed), and a subsequent
`get_user u` on the resulting store finds exactly that record. -/
theorem claim_c6_create_then_get (s : Store) (u e p : String)
    (hfree : insertCollides s u e = false) :
    ∃ newuser : User,
      create_user s u e p = (s ++ [newuser], [Out.record newuser]) ∧
      newuser.username = u ∧ newuser.email = e ∧ newuser.password = p ∧
      get_user (s ++ [newuser]) u = (s ++ [newuser], [Out.record newuser]) := by
  refine ⟨{ id := nextId s, username := u, email := e, password := p },
    by simp [create_user, hfree], rfl, rfl, rfl, ?_⟩
  have hfree' : ∀ x ∈ s, ¬x.username = u ∧ ¬x.email = e := by
    simpa [insertCollides] using hfree
  have hall : ∀ x ∈ s, (fun r => r.username == u) x = false := by
    intro x hx
    simp [(hfree' x hx).1]
  unfold get_user
  rw [find_append_of_all_false _ s _ hall,
    List.find?_cons_of_pos _ (by simp)]

theorem claim_c6_witness :
    ∃ newuser : User,
      create_user [] "carol" "carol@mail.com" "pw"
        = ([] ++ [newuser], [Out.record newuser]) ∧
      newuser.username = "carol" ∧ newuser.email = "carol@mail.com" ∧
      newuser.password = "pw" ∧
      get_user ([] ++ [newuser]) "carol"
        = ([] ++ [newuser], [Out.record newuser]) :=
  claim_c6_create_then_get [] "carol" "carol@mail.com" "pw" rfl

/-- Shared computation: `change_email` on a store whose first match for
`u` is `r`, when the new email collides with no other row, commits the
update and prints the confirmation built from the username and the
post-mutation email. -/
lemma change_email_found (pre post : Store) (r : User) (u ne : String)
    (hr : r.username = u) (hpre : ∀ y ∈ pre, y.username ≠ u)
    (hno : ∀ y ∈ pre ++ post, y.email ≠ ne) :
    change_email (pre ++ r :: post) u ne
      = Except.ok (pre ++ { r with email := ne } :: post,
          [Out.msg ("Updated " ++ u ++ "\x27s email to " ++ ne)]) := by
  have hfind := find_first_match u pre post r hpre hr
  have hset := setEmailFirst_append u ne pre post r hpre hr
  have hpre0 : emailCount pre ne = 0 :=
    emailCount_eq_zero pre ne fun y hy => hno y (List.mem_append_left _ hy)
  have hpost0 : emailCount post ne = 0 :=
    emailCount_eq_zero post ne fun y hy => hno y (List.mem_append_right _ hy)
  have hc : emailCount (setEmailFirst u ne (pre ++ r :: post)) ne = 1 := by
    rw [hset, emailCount_append, hpre0]
    simp only [emailCount, List.countP_cons] at hpost0 ⊢
    simp [hpost0]
  simp only [change_email, hfind]
  rw [hc]
  simp [hset, hr]

/-- Shared computation: `change_email` on a store whose first match for
`u` is `r`, when some other row `x` already holds the new email, hits
the uniqueness constraint on commit and the `ConstraintViolation`
propagates. -/
lemma change_email_collision (pre post : Store) (r x : User) (u ne : String)
    (hr : r.username = u) (hpre : ∀ y ∈ pre, y.username ≠ u)
    (hx : x ∈ pre ++ post) (hxe : x.email = ne) :
    change_email (pre ++ r :: post) u ne
      = Except.error ConstraintViolation.violation := by
  have hfind := find_first_match u pre post r hpre hr
  have hset := setEmailFirst_append u ne pre post r hpre hr
  have hx1 : 0 < emailCount pre ne + emailCount post ne := by
    have h := emailCount_pos (pre ++ post) ne x hx hxe
    rwa [emailCount_append] at h
  have hcnt : 1 < emailCount (setEmailFirst u ne (pre ++ r :: post)) ne := by
    rw [hset, emailCount_append]
    have hcons : emailCount ({ r with email := ne } :: post) ne
        = emailCount post ne + 1 := by
      simp [emailCount, List.countP_cons]
    rw [hcons]
    omega
  simp only [change_email, hfind]
  rw [if_pos hcnt]

/-- C2: when a record with username `u` exists and the new email already
belongs to another record, the uniqueness violation raised by
`change_email`'s commit is not caught: `ConstraintViolation` propagates
out of `change_email`, terminating the invocation as a failure —
whereas the same email collision in `create_user` is caught and
converted to the "Username or email already taken!" message, with the
store unchanged. -/
theorem claim_c2_change_email_uncaught (pre post : Store) (r x : User)
    (u ne u2 p2 : String)
    (hr : r.username = u)
    (hpre : ∀ y ∈ pre, y.username ≠ u)
    (hx : x ∈ pre ++ post)
    (hxe : x.email = ne) :
    change_email (pre ++ r :: post) u ne
      = Except.error ConstraintViolation.violation ∧
    (create_user (pre ++ r :: post) u2 ne p2).1 = pre ++ r :: post ∧
    Out.msg "Username or email already taken!"
      ∈ (create_user (pre ++ r :: post) u2 ne p2).2 := by
  have hmem : x ∈ pre ++ r :: post := by
    rcases List.mem_append.1 hx with h | h
    · exact List.mem_append_left _ h
    · exact List.mem_append_right _ (List.mem_cons_of_mem r h)
  have hcol : insertCollides (pre ++ r :: post) u2 ne = true := by
    unfold insertCollides
    rw [List.any_eq_true]
    exact ⟨x, hmem, by simp [hxe]⟩
  exact ⟨change_email_collision pre post r x u ne hr hpre hx hxe,
    by simp [create_user, hcol], by simp [create_user, hcol]⟩

theorem claim_c2_witness :
    change_email ([] ++ bobRec :: [aliceRec]) "bob" "alice@mail.com"
      = Except.error ConstraintViolation.violation ∧
    (create_user ([] ++ bobRec :: [aliceRec]) "carol" "alice@mail.com" "pw").1
      = [] ++ bobRec :: [aliceRec] ∧
    Out.msg "Username or email already taken!"
      ∈ (create_user ([] ++ bobRec :: [aliceRec]) "carol" "alice@mail.com" "pw").2 :=
  claim_c2_change_email_uncaught [] [aliceRec] bobRec aliceRec
    "bob" "alice@mail.com" "carol" "pw" rfl (by simp) (by simp) rfl

/-- C8: `change_email` on a store containing username `u` (first match
`r`), with a new email colliding with no other record, sets exactly that
record's email and preserves its `id`, `username` and `password` (the
result is `{ r with email := ne }`) and every other record (`pre` and
`post` are unchanged); a subsequent `get_user u` returns the record with
the new email. -/
theorem claim_c8_change_email_frame (pre post : Store) (r : User) (u ne : String)
    (hr : r.username = u)
    (hpre : ∀ y ∈ pre, y.username ≠ u)
    (hno : ∀ y ∈ pre ++ post, y.email ≠ ne) :
    change_email (pre ++ r :: post) u ne
      = Except.ok (pre ++ { r with email := ne } :: post,
          [Out.msg ("Updated " ++ u ++ "\x27s email to " ++ ne)]) ∧
    get_user (pre ++ { r with email := ne } :: post) u
      = (pre ++ { r with email := ne } :: post,
         [Out.record { r with email := ne }]) := by
  refine ⟨change_email_found pre post r u ne hr hpre hno, ?_⟩
  have hfind := find_first_match u pre post { r with email := ne } hpre hr
  unfold get_user
  rw [hfind]

theorem claim_c8_witness :
    change_email ([aliceRec] ++ bobRec :: []) "bob" "new@mail.com"
      = Except.ok ([aliceRec] ++ { bobRec with email := "new@mail.com" } :: [],
          [Out.msg ("Updated " ++ "bob" ++ "\x27s email to " ++ "new@mail.com")]) ∧
    get_user ([aliceRec] ++ { bobRec with email := "new@mail.com" } :: []) "bob"
      = ([aliceRec] ++ { bobRec with email := "new@mail.com" } :: [],
         [Out.record { bobRec with email := "new@mail.com" }]) :=
  claim_c8_change_email_frame [aliceRec] [] bobRec "bob" "new@mail.com"
    rfl (by decide) (by decide)

/-- C9 counterexample: on the store holding only bob (email
"bob@mail.com"), a successful `change_email bob new@mail.com` prints
"Updated bob's email to new@mail.com" — a message that does not contain
the old email "bob@mail.com" as a substring, so the printed confirmation
does not include both the old and the new email. -/
theorem claim_c9_counterexample :
    change_email [bobRec] "bob" "new@mail.com"
      = Except.ok ([{ bobRec with email := "new@mail.com" }],
          [Out.msg "Updated bob\x27s email to new@mail.com"]) ∧
    strContains "Updated bob\x27s email to new@mail.com" "bob@mail.com" = false ∧
    strContains "Updated bob\x27s email to new@mail.com" "new@mail.com" = true := by
  refine ⟨?_, by decide, by decide⟩
  rfl

/-- C9 as amended: on success, `change_email`'s printed confirmation is
exactly "Updated <username>'s email to <new email>" — it includes the
username and the new email of the updated user (but not, in general, the
old email). -/
theorem claim_c9_message (pre post : Store) (r : User) (u ne : String)
    (hr : r.username = u)
    (hpre : ∀ y ∈ pre, y.username ≠ u)
    (hno : ∀ y ∈ pre ++ post, y.email ≠ ne) :
    ∃ s' : Store,
      change_email (pre ++ r :: post) u ne
        = Except.ok (s', [Out.msg ("Updated " ++ u ++ "\x27s email to " ++ ne)]) ∧
      strContains ("Updated " ++ u ++ "\x27s email to " ++ ne) u = true ∧
      strContains ("Updated " ++ u ++ "\x27s email to " ++ ne) ne = true := by
  refine ⟨pre ++ { r with email := ne } :: post,
    change_email_found pre post r u ne hr hpre hno, ?_, ?_⟩
  · simp only [strContains, String.toList, String.data_append, List.append_assoc]
    exact hasSub_of_mid ("Updated ".data) u.data ("\x27s email to ".data ++ ne.data)
  · simp only [strContains, String.toList, String.data_append, List.append_assoc]
    simpa using hasSub_of_mid ("Updated ".data ++ (u.data ++ "\x27s email to ".data))
      ne.data []

theorem claim_c9_witness :
    ∃ s' : Store,
      change_email ([] ++ bobRec :: []) "bob" "new@mail.com"
        = Except.ok (s',
            [Out.msg ("Updated " ++ "bob" ++ "\x27s email to " ++ "new@mail.com")]) ∧
      strContains ("Updated " ++ "bob" ++ "\x27s email to " ++ "new@mail.com") "bob"
        = true ∧
      strContains ("Updated " ++ "bob" ++ "\x27s email to " ++ "new@mail.com")
        "new@mail.com" = true :=
  claim_c9_message [] [] bobRec "bob" "new@mail.com" rfl (by simp) (by simp)

end UserCli
